import Mathlib

/-
Verification of the codemap structural-indexing pipeline (codemap.py).

The program is shallowly embedded: Python strings are modelled as lists of
Unicode code points (`Str`), the file system as a finite tree of named
directories and files, and the one external data source (git churn counts)
as an injected association list.  All definitions below are translated from
codemap.py; section markers name the corresponding Python functions.
-/

namespace Codemap

/-- Python strings are sequences of Unicode code points; we model them as
lists of characters so that every operation is structurally recursive. -/
abbrev Str := List Char

/-- Convert a Lean string literal to the model representation. -/
def str (s : String) : Str := s.toList

/-- Lexicographic comparison of code points, matching Python string `<=`. -/
def strLe : Str → Str → Bool
  | [], _ => true
  | _ :: _, [] => false
  | a :: as, b :: bs => if a = b then strLe as bs else decide (a.toNat < b.toNat)

/-- Python `pat in s` substring test. -/
def strContains : Str → Str → Bool
  | [], pat => pat.isEmpty
  | c :: rest, pat => pat.isPrefixOf (c :: rest) || strContains rest pat

/-- Python `s.lstrip(cs)`: drop leading characters belonging to `cs`. -/
def lstripChars (cs : Str) (s : Str) : Str := s.dropWhile (fun c => cs.contains c)

/-- Python `s.rstrip(cs)`: drop trailing characters belonging to `cs`. -/
def rstripChars (cs : Str) (s : Str) : Str := (lstripChars cs s.reverse).reverse

/-- Python `s.strip(cs)`. -/
def stripChars (cs : Str) (s : Str) : Str := rstripChars cs (lstripChars cs s)

/-- The ASCII whitespace characters stripped by Python `str.strip()`. -/
def wsChars : Str := [' ', '\t', '\n', '\r', '\x0b', '\x0c']

/-- Python `s.strip()` (ASCII whitespace; the inputs we reason about are ASCII). -/
def stripWs (s : Str) : Str := stripChars wsChars s

/-- Split a string on a separator character; Python `s.split(sep)` for a
one-character separator (so `"".split(sep) = [""]`). -/
def splitOnChar (sep : Char) : Str → List Str
  | [] => [[]]
  | c :: rest =>
    let r := splitOnChar sep rest
    if c = sep then [] :: r
    else (c :: r.headI) :: r.tail

/-- Python string join: `sep` interleaved between the items of `xs`. -/
def strJoin (sep : Str) : List Str → Str
  | [] => []
  | [x] => x
  | x :: xs => x ++ sep ++ strJoin sep xs

/-- Decimal rendering of a natural number. -/
def natStr (n : Nat) : Str := (toString n).toList

/-- Helper for `commaFmt`: walks the reversed digit string, inserting a comma
before every group of three digits (counted from the right). -/
def commaRev : Nat → Str → Str
  | _, [] => []
  | k, c :: rest =>
    (if 0 < k ∧ k % 3 = 0 then [c, ','] else [c]) ++ commaRev (k + 1) rest

/-- Python `f-string` formatting `.../,` of a natural number: decimal digits
grouped in threes by commas. -/
def commaFmt (n : Nat) : Str := (commaRev 0 (natStr n).reverse).reverse

/-- Lowercase an ASCII letter (model of Python `str.lower` on the ASCII file
names this program compares). -/
def charLower (c : Char) : Char :=
  if 'A'.toNat ≤ c.toNat ∧ c.toNat ≤ 'Z'.toNat then Char.ofNat (c.toNat + 32) else c

/-- Python `s.lower()`. -/
def strLower (s : Str) : Str := s.map charLower

/-- The extension part of `os.path.splitext` applied to a basename: the suffix
from the last dot on, except when every character before that dot is itself a
dot (so ".bashrc" has no extension). -/
def splitExtExt (name : Str) : Str :=
  match name.reverse.findIdx? (fun c => c = '.') with
  | none => []
  | some j =>
    let d := name.length - j - 1
    if (name.take d).any (fun c => c ≠ '.') then name.drop d else []

/-- Stable insertion of `a` into a list: `a` goes before the first element `b`
with `le a b`. -/
def insertLe {α : Type} (le : α → α → Bool) (a : α) : List α → List α
  | [] => [a]
  | b :: bs => if le a b then a :: b :: bs else b :: insertLe le a bs

/-- Stable insertion sort (models Python `sorted`, which is stable): for a
total preorder `le`, equal elements keep their original relative order. -/
def sortLe {α : Type} (le : α → α → Bool) : List α → List α
  | [] => []
  | a :: as => insertLe le a (sortLe le as)

/- Fixed configuration tables (constants of codemap.py). -/

/-- SKIP_DIRS: directory names pruned by the collector. -/
def SKIP_DIRS : List Str :=
  [str ".git", str "__pycache__", str "node_modules", str ".venv", str "venv",
   str ".tox", str ".eggs", str "dist", str "build", str ".mypy_cache",
   str ".pytest_cache", str ".ruff_cache", str "egg-info", str ".idea",
   str ".vscode"]

/-- SKIP_FILES: lock files excluded from discovery. -/
def SKIP_FILES : List Str :=
  [str "package-lock.json", str "yarn.lock", str "poetry.lock",
   str "Pipfile.lock", str "pnpm-lock.yaml", str "uv.lock"]

/-- CHARS_PER_TOKEN: rough token estimation constant. -/
def CHARS_PER_TOKEN : Nat := 4

/-- The extension-to-language lookup table of `_detect_language`. -/
def ext_map : List (Str × Str) :=
  [(str ".py", str "Python"), (str ".js", str "JavaScript"),
   (str ".ts", str "TypeScript"), (str ".jsx", str "React"),
   (str ".tsx", str "React/TS"), (str ".rs", str "Rust"),
   (str ".go", str "Go"), (str ".rb", str "Ruby"), (str ".java", str "Java"),
   (str ".c", str "C"), (str ".cpp", str "C++"), (str ".h", str "C/C++ Header"),
   (str ".sh", str "Shell"), (str ".bash", str "Bash"), (str ".zsh", str "Zsh"),
   (str ".sql", str "SQL"), (str ".html", str "HTML"), (str ".css", str "CSS"),
   (str ".yaml", str "YAML"), (str ".yml", str "YAML"), (str ".toml", str "TOML"),
   (str ".json", str "JSON"), (str ".md", str "Markdown"),
   (str ".rst", str "reStructuredText"), (str ".dockerfile", str "Dockerfile"),
   (str ".tf", str "Terraform")]

/-- The conventional entrypoint basenames checked by `_is_entrypoint`. -/
def entrypoint_names : List Str :=
  [str "main.py", str "app.py", str "cli.py", str "server.py", str "manage.py",
   str "index.js", str "index.ts", str "main.go", str "main.rs"]

/-- The standard-library module set used by `_format_deps`. -/
def stdlib_modules : List Str :=
  [str "os", str "sys", str "re", str "json", str "csv", str "ast", str "math",
   str "hashlib", str "pathlib", str "datetime", str "collections",
   str "typing", str "dataclasses", str "argparse", str "textwrap",
   str "subprocess", str "unittest", str "functools", str "itertools",
   str "io", str "abc", str "enum", str "copy", str "shutil", str "glob",
   str "tempfile", str "logging", str "warnings", str "http", str "urllib",
   str "socket", str "ssl", str "email", str "html", str "xml", str "sqlite3",
   str "threading", str "multiprocessing", str "asyncio", str "concurrent",
   str "contextlib", str "inspect", str "dis", str "importlib", str "pkgutil",
   str "struct", str "time"]

/- Data models (the dataclasses of codemap.py). -/

/-- FunctionSig dataclass. -/
structure FunctionSig where
  name : Str
  params : Str
  returns : Str
  docstring : Str
  is_async : Bool := false
  decorators : List Str := []
  class_name : Str := []
deriving Repr

/-- ClassSig dataclass. -/
structure ClassSig where
  name : Str
  bases : List Str := []
  docstring : Str := []
  methods : List FunctionSig := []
  init_params : Str := []
deriving Repr

/-- ModuleAPI dataclass. -/
structure ModuleAPI where
  path : Str
  docstring : Str := []
  functions : List FunctionSig := []
  classes : List ClassSig := []
  imports : List Str := []
  exports : List Str := []
deriving Repr

/- Model of the Python syntax tree, as far as codemap.py inspects it.
Sub-expressions that the code only ever passes to `ast.unparse` (annotations,
defaults, decorators, base classes, return annotations) are modelled by the
outcome of that call: `some s` when unparsing yields the text `s`, `none`
when it raises (the code catches AttributeError and ValueError). -/

/-- One entry of `ast.arguments.args` or `.kwonlyargs`: the argument name and,
when present, the unparse outcome of its annotation. -/
structure PyArg where
  arg : Str
  annotation : Option (Option Str) := none
deriving Repr

/-- The fields of `ast.arguments` that `_format_params` reads.  Note that
CPython right-aligns `defaults` over posonlyargs ++ args; the code never reads
`posonlyargs` or `kw_defaults`, so they are not represented, but `defaults`
may be longer than `args` (when positional-only parameters carry defaults). -/
structure PyArgs where
  args : List PyArg := []
  defaults : List (Option Str) := []
  vararg : Option Str := none
  kwonlyargs : List PyArg := []
  kwarg : Option Str := none
deriving Repr

/-- An assignment target: `ast.Name` or anything else. -/
inductive AssignTarget where
  | nameTgt (id : Str)
  | otherTgt
deriving Repr

/-- An element of a literal list/tuple on the right of an assignment:
a string constant or anything else. -/
inductive SeqElt where
  | eltStr (s : Str)
  | eltOther
deriving Repr

/-- The right-hand side of a top-level assignment: a literal `ast.List` or
`ast.Tuple` (the only shapes the `__all__` scan looks into) or anything else. -/
inductive AssignVal where
  | seqVal (elts : List SeqElt)
  | otherVal
deriving Repr

/-- The value of a bare expression statement: a string constant (a docstring
candidate) or anything else. -/
inductive DocExpr where
  | constStr (s : Str)
  | otherExpr
deriving Repr

/-- Python statements, restricted to the node kinds codemap.py dispatches on;
every other node kind is `otherStmt` (a no-op for the extractor).
`importStmt` carries the dotted `alias.name` of each alias;
`importFromStmt` carries `node.module` (`none` for `from . import x`).
Class decorators are never read by the code and are not represented. -/
inductive PyStmt where
  | assignStmt (targets : List AssignTarget) (value : AssignVal)
  | importStmt (names : List Str)
  | importFromStmt (module : Option Str)
  | functionDef (name : Str) (args : PyArgs) (returns : Option (Option Str))
      (decorator_list : List (Option Str)) (body : List PyStmt)
  | asyncFunctionDef (name : Str) (args : PyArgs) (returns : Option (Option Str))
      (decorator_list : List (Option Str)) (body : List PyStmt)
  | classDef (name : Str) (bases : List (Option Str)) (body : List PyStmt)
  | exprStmt (value : DocExpr)
  | otherStmt
deriving Repr

/-- A parsed module: its top-level statement list. -/
structure PyModule where
  body : List PyStmt
deriving Repr

/- Python API extraction (`_format_params`, `_first_docstring_line`,
`extract_python_api`). -/

/-- Rendering of one positional argument inside the `for i, arg in
enumerate(args.args)` loop of `_format_params`: name, then `: type` when the
annotation unparses, then ` = default` when `0 <= i - defaults_offset <
len(defaults)` (with ` = ...` when the default does not unparse). -/
def renderPosArg (offset : Int) (defaults : List (Option Str)) (i : Nat)
    (a : PyArg) : Str :=
  (match a.annotation with
   | some (some t) => a.arg ++ str ": " ++ t
   | _ => a.arg) ++
  (if 0 ≤ (i : Int) - offset ∧ (i : Int) - offset < (defaults.length : Int) then
    match defaults.getD ((i : Int) - offset).toNat none with
    | some d => str " = " ++ d
    | none => str " = ..."
   else [])

/-- The positional part of the `_format_params` loop, carrying the running
index `i`; arguments named `self` or `cls` are skipped (at any position). -/
def posParts (offset : Int) (defaults : List (Option Str)) :
    Nat → List PyArg → List Str
  | _, [] => []
  | i, a :: rest =>
    (if a.arg = str "self" ∨ a.arg = str "cls" then []
     else [renderPosArg offset defaults i a]) ++ posParts offset defaults (i + 1) rest

/-- Rendering of a keyword-only argument: name, plus `: type` when the
annotation unparses (defaults are never rendered for these). -/
def renderKwOnly (a : PyArg) : Str :=
  match a.annotation with
  | some (some t) => a.arg ++ str ": " ++ t
  | _ => a.arg

/-- Model of `_format_params`: positional arguments (with `self`/`cls`
skipped), then `*vararg`, then keyword-only arguments, then `**kwarg`,
joined with `", "`. -/
def format_params (args : PyArgs) : Str :=
  strJoin (str ", ")
    (posParts ((args.args.length : Int) - (args.defaults.length : Int))
        args.defaults 0 args.args
      ++ (match args.vararg with
          | some v => [['*'] ++ v]
          | none => [])
      ++ args.kwonlyargs.map renderKwOnly
      ++ (match args.kwarg with
          | some k => [str "**" ++ k]
          | none => []))

/-- Model of `_first_docstring_line`: when the first statement of a body is a
bare string constant, its stripped first line, truncated to 120 characters. -/
def first_docstring_line (body : List PyStmt) : Str :=
  match body with
  | PyStmt.exprStmt (DocExpr.constStr s) :: _ =>
    let doc := stripWs s
    (stripWs (splitOnChar '\n' doc).headI).take 120
  | _ => []

/-- Does an assignment target match `ast.Name` with id `__all__`. -/
def isAllName : AssignTarget → Bool
  | AssignTarget.nameTgt id => decide (id = str "__all__")
  | AssignTarget.otherTgt => false

/-- The string constants among the elements of a literal list/tuple value. -/
def seqStrElts : AssignVal → List Str
  | AssignVal.seqVal elts =>
    elts.filterMap (fun e => match e with
      | SeqElt.eltStr s => some s
      | SeqElt.eltOther => none)
  | AssignVal.otherVal => []

/-- The `__all__` scan of `extract_python_api`: for every `__all__` target of
a top-level assignment whose value is a literal list/tuple, its string
elements are appended in order. -/
def exportsOfStmt : PyStmt → List Str
  | PyStmt.assignStmt tgts v =>
    (tgts.map (fun t => if isAllName t then seqStrElts v else [])).flatten
  | _ => []

/-- Python `name.split(".")[0]`. -/
def firstSegment (s : Str) : Str := (splitOnChar '.' s).headI

/-- The import scan of `extract_python_api`: first dotted segment of every
`import` alias; for `from X import ...`, the first segment of `X` when `X`
is present, non-empty and not relative. -/
def importsOfStmt : PyStmt → List Str
  | PyStmt.importStmt names => names.map firstSegment
  | PyStmt.importFromStmt (some m) =>
    if m.isEmpty then [] else if ['.'].isPrefixOf m then [] else [firstSegment m]
  | _ => []

/-- Model of the `returns` rendering in `extract_python_api`: empty unless the
annotation is present and unparses. -/
def renderReturns : Option (Option Str) → Str
  | some (some r) => r
  | _ => []

/-- The per-statement case of the module-level function loop of
`extract_python_api`: a top-level (async) function definition yields a
signature unless its name is underscore-prefixed and `include_private` is
off; every other statement yields nothing. -/
def funcOfStmt (include_private : Bool) : PyStmt → Option FunctionSig
  | PyStmt.functionDef name args returns decs fbody =>
    if ¬ include_private ∧ ['_'].isPrefixOf name then none
    else some { name := name, params := format_params args,
                returns := renderReturns returns,
                docstring := first_docstring_line fbody,
                is_async := false,
                decorators := decs.filterMap id, class_name := [] }
  | PyStmt.asyncFunctionDef name args returns decs fbody =>
    if ¬ include_private ∧ ['_'].isPrefixOf name then none
    else some { name := name, params := format_params args,
                returns := renderReturns returns,
                docstring := first_docstring_line fbody,
                is_async := true,
                decorators := decs.filterMap id, class_name := [] }
  | _ => none

/-- The module-level function loop of `extract_python_api`. -/
def funcsOfBody (include_private : Bool) (body : List PyStmt) :
    List FunctionSig :=
  body.filterMap (funcOfStmt include_private)

/-- One step of the class-body loop: `__init__` sets the constructor
parameter list (replacing any earlier one), other (async) functions become
methods subject to the visibility filter; methods carry no decorators. -/
def classMemberStep (include_private : Bool) (clsName : Str)
    (acc : List FunctionSig × Str) (st : PyStmt) : List FunctionSig × Str :=
  match st with
  | PyStmt.functionDef name args returns _ fbody =>
    if name = str "__init__" then (acc.1, format_params args)
    else if ¬ include_private ∧ ['_'].isPrefixOf name then acc
    else (acc.1 ++ [{ name := name, params := format_params args,
                      returns := renderReturns returns,
                      docstring := first_docstring_line fbody,
                      is_async := false, decorators := [],
                      class_name := clsName }], acc.2)
  | PyStmt.asyncFunctionDef name args returns _ fbody =>
    if name = str "__init__" then (acc.1, format_params args)
    else if ¬ include_private ∧ ['_'].isPrefixOf name then acc
    else (acc.1 ++ [{ name := name, params := format_params args,
                      returns := renderReturns returns,
                      docstring := first_docstring_line fbody,
                      is_async := true, decorators := [],
                      class_name := clsName }], acc.2)
  | _ => acc

/-- The class loop of `extract_python_api`. -/
def classesOfBody (include_private : Bool) (body : List PyStmt) :
    List ClassSig :=
  body.filterMap fun st =>
    match st with
    | PyStmt.classDef name bases cbody =>
      if ¬ include_private ∧ ['_'].isPrefixOf name then none
      else
        let ms := cbody.foldl (classMemberStep include_private name) ([], [])
        some { name := name, bases := bases.filterMap id,
               docstring := first_docstring_line cbody,
               methods := ms.1, init_params := ms.2 }
    | _ => none

/-- A file on disk as this program can observe it: its basename, its stat
size, its (decoded) text content, and — for Python files — the outcome of
`ast.parse` on that content (`none` models SyntaxError, and also the OSError
read-failure path, both of which make `extract_python_api` return None). -/
structure SrcFile where
  name : Str
  size : Nat := 0
  content : Str := []
  pyParse : Option PyModule := none
deriving Repr

/-- Model of `extract_python_api`.  The Python code reads and parses the file
named by `filepath`; here the file is passed directly.  `api.path` is the
basename, later overwritten by callers with the relative path. -/
def extract_python_api (f : SrcFile) (include_private : Bool) :
    Option ModuleAPI :=
  match f.pyParse with
  | none => none
  | some m =>
    some { path := f.name,
           docstring := first_docstring_line m.body,
           exports := (m.body.map exportsOfStmt).flatten,
           imports := sortLe strLe ((m.body.map importsOfStmt).flatten).dedup,
           functions := funcsOfBody include_private m.body,
           classes := classesOfBody include_private m.body }

/- File discovery (`_detect_language`, `_is_entrypoint`, `_get_description`,
`_is_test_file`, `discover_files`). -/

/-- The double-quote character. -/
def dquote : Char := '"'

/-- The single-quote character (code point 39). -/
def squote : Char := Char.ofNat 39

/-- The characters stripped around docstring text in `_get_description`:
both quote kinds and the space. -/
def quoteStripSet : Str := [dquote, squote, ' ']

/-- Model of `_detect_language` applied to a basename. -/
def detect_language (filename : Str) : Str :=
  let name := strLower filename
  if name = str "dockerfile" then str "Dockerfile"
  else if name = str "makefile" then str "Makefile"
  else match ext_map.lookup (splitExtExt name) with
    | some l => l
    | none => []

/-- Model of `_is_entrypoint` applied to a basename and the file content
(the content is only non-empty for Python files, mirroring the caller). -/
def is_entrypoint (filename content : Str) : Bool :=
  let name := strLower filename
  entrypoint_names.contains name ||
    ((str ".py").isSuffixOf name && !content.isEmpty &&
      strContains content (str "__name__") && strContains content (str "__main__"))

/-- The inner loop of `_get_description` that, after an opening docstring
line whose own text is empty, returns the next non-blank line (stripped of
quotes and spaces, truncated to 120 characters). -/
def docContinuation : List Str → Str
  | [] => []
  | l :: rest =>
    let n := stripWs l
    if n.isEmpty then docContinuation rest
    else (stripChars quoteStripSet n).take 120

/-- The line scan of `_get_description`: skip blank and shebang lines; a
triple-quoted docstring line yields its stripped content (or the next
non-blank line when that content is empty); a `#` or `//` comment yields its
text; anything else stops the scan with no description. -/
def descFromLines : List Str → Str
  | [] => []
  | l :: rest =>
    let line := stripWs l
    if line.isEmpty || (str "#!").isPrefixOf line then descFromLines rest
    else if [dquote, dquote, dquote].isPrefixOf line ||
        [squote, squote, squote].isPrefixOf line then
      let doc := stripChars quoteStripSet line
      if ¬ doc.isEmpty then doc.take 120
      else docContinuation rest
    else if ['#'].isPrefixOf line then (lstripChars (str "# ") line).take 120
    else if (str "//").isPrefixOf line then (lstripChars (str "/ ") line).take 120
    else []

/-- Model of `_get_description` on a file content (the Python code reads the
file in text mode with permissive decoding; a read failure, which yields an
empty description, is outside the model — files here are always readable). -/
def get_description (content : Str) : Str :=
  descFromLines (splitOnChar '\n' content)

/-- Line count as in `discover_files`: iterating the file in binary mode
counts newline-terminated chunks plus a final unterminated chunk. -/
def count_lines (content : Str) : Nat :=
  content.count '\n' +
    (if content = [] then 0 else if content.getLast? = some '\n' then 0 else 1)

/-- The test-directory names of `_is_test_file`. -/
def test_dir_names : List Str :=
  [str "test", str "tests", str "__tests__", str "spec", str "specs"]

/-- Model of `_is_test_file`, given the basename and the name of the
directory directly containing the file. -/
def is_test_file (basename dirname : Str) : Bool :=
  (str "test_").isPrefixOf basename ||
    (str "_test.py").isSuffixOf basename ||
    (str "_test.js").isSuffixOf basename ||
    (str ".test.js").isSuffixOf basename ||
    (str ".test.ts").isSuffixOf basename ||
    (str ".spec.js").isSuffixOf basename ||
    (str ".spec.ts").isSuffixOf basename ||
    decide (basename = str "test.py") || decide (basename = str "tests.py") ||
    test_dir_names.contains dirname

/-- FileEntry dataclass.  The Python record stores the absolute `path`,
whose only use is re-reading the file; the model instead carries the file
itself in `src` (so `src.name` is the basename the code would recover with
`os.path.basename`). -/
structure FileEntry where
  src : SrcFile
  rel_path : Str
  size : Nat := 0
  lines : Nat := 0
  description : Str := []
  language : Str := []
  is_entrypoint : Bool := false
  importance : ℚ := 0
deriving Repr

mutual
/-- A directory tree: named subdirectories and the files contained directly. -/
inductive FSTree where
  | node (dirs : FSDirs) (files : List SrcFile)
/-- The subdirectories of a directory, in the order the operating system
reports them to `os.walk`. -/
inductive FSDirs where
  | dnil
  | dcons (name : Str) (sub : FSTree) (rest : FSDirs)
end

/-- The in-place `dirnames` filter of `discover_files`: a directory survives
when its name is not in SKIP_DIRS and not hidden. -/
def keepDir (d : Str) : Bool := !SKIP_DIRS.contains d && !(['.'].isPrefixOf d)

/-- The name of the directory directly containing a file whose directory has
relative components `relParts`; for root-level files this is the basename of
the root itself (`os.path.basename(os.path.dirname(filepath))`). -/
def parentDirName (rootName : Str) (relParts : List Str) : Str :=
  relParts.getLastD rootName

/-- The per-file body of the discovery loop: skip lock files and hidden
files, optionally skip test files, skip files over the 1 MB threshold;
otherwise build the FileEntry (stat and read failures, which the code skips
or zeroes, are outside the model — files here always stat and read).
`filepath.endswith(".py")` agrees with the basename test because the path
separator precedes the basename. -/
def processFile (relParts : List Str) (parentName : Str) (exclude_tests : Bool)
    (f : SrcFile) : Option FileEntry :=
  if SKIP_FILES.contains f.name || ['.'].isPrefixOf f.name then none
  else if exclude_tests && is_test_file f.name parentName then none
  else if f.size > 1000000 then none
  else
    let lang := detect_language f.name
    some { src := f,
           rel_path := strJoin ['/'] (relParts ++ [f.name]),
           size := f.size,
           lines := count_lines f.content,
           description := if lang ≠ [] then get_description f.content else [],
           language := lang,
           is_entrypoint := is_entrypoint f.name
             (if (str ".py").isSuffixOf f.name then f.content else []),
           importance := 0 }

mutual
/-- Model of the `os.walk` loop of `discover_files` at one directory, where
`relParts` is the list of path components from the root (its length is the
depth: the number of path separators of the relative directory path).  A
directory whose depth exceeds `max_depth` contributes nothing — the code
clears `dirnames` and skips the file loop; otherwise its files are processed
in sorted-name order and its surviving subdirectories walked in order. -/
def walkNode (max_depth : Nat) (exclude_tests : Bool) (rootName : Str) :
    FSTree → List Str → List FileEntry
  | FSTree.node dirs files, relParts =>
    if relParts.length > max_depth then []
    else
      (sortLe (fun a b => strLe a.name b.name) files).filterMap
        (processFile relParts (parentDirName rootName relParts) exclude_tests)
      ++ walkDirs max_depth exclude_tests rootName dirs relParts
/-- Walk the subdirectory list, descending only into surviving names. -/
def walkDirs (max_depth : Nat) (exclude_tests : Bool) (rootName : Str) :
    FSDirs → List Str → List FileEntry
  | FSDirs.dnil, _ => []
  | FSDirs.dcons d sub rest, relParts =>
    (if keepDir d then
      walkNode max_depth exclude_tests rootName sub (relParts ++ [d])
     else [])
    ++ walkDirs max_depth exclude_tests rootName rest relParts
end

/-- Model of `discover_files`.  `rootName` is the basename of the absolute
root path: it is the parent directory name reported for root-level files in
the test-file check, and the project name used by the renderers. -/
def discover_files (t : FSTree) (rootName : Str) (max_depth : Nat)
    (exclude_tests : Bool) : List FileEntry :=
  walkNode max_depth exclude_tests rootName t []

/- Importance scoring (`_score_importance`). -/

/-- Languages receiving the +0.2 primary-source bonus. -/
def primary_langs : List Str :=
  [str "Python", str "JavaScript", str "TypeScript", str "Rust", str "Go"]

/-- Languages receiving the +0.1 build/ops bonus. -/
def ops_langs : List Str := [str "Makefile", str "Dockerfile", str "Shell"]

/-- `max(e.lines for e in entries) or 1` (the caller guarantees `entries` is
non-empty). -/
def maxLinesOf (entries : List FileEntry) : Nat :=
  if (entries.map (fun e => e.lines)).foldl max 0 = 0 then 1
  else (entries.map (fun e => e.lines)).foldl max 0

/-- `max(churn.values()) if churn else 1`. -/
def maxChurnOf (churn : List (Str × Nat)) : Nat :=
  if churn.isEmpty then 1 else (churn.map (fun c => c.2)).foldl max 0

/-- The language contribution: +0.2 for primary source languages, +0.1 for
build/ops languages, 0 otherwise. -/
def langBonus (lang : Str) : ℚ :=
  if primary_langs.contains lang then 2/10
  else if ops_langs.contains lang then 1/10 else 0

/-- The churn contribution: up to +0.2, linear in the looked-up change count
over the maximum, and 0 when the path has no churn record. -/
def churnBonus (churn : List (Str × Nat)) (max_churn : Nat) (p : Str) : ℚ :=
  match churn.lookup p with
  | some c => ((c : ℚ) / (max_churn : ℚ)) * (2/10)
  | none => 0

/-- The additive score of `_score_importance` before clamping: the sequence
of `score +=` statements is a pure sum of six contributions.  The code
computes in binary floating point; the model uses exact rationals. -/
def rawScore (max_lines : Nat) (churn : List (Str × Nat)) (max_churn : Nat)
    (e : FileEntry) : ℚ :=
  (if e.is_entrypoint then 3/10 else 0)
    + langBonus e.language
    + ((e.lines : ℚ) / (max_lines : ℚ)) * (2/10)
    + churnBonus churn max_churn e.rel_path
    + (if e.rel_path.count '/' = 0 then 1/10 else 0)
    + (if e.description ≠ [] then 1/20 else 0)

/-- The per-entry body of the `_score_importance` loop; `churn` is the
injected git-churn table (path to change count over the last 90 days) and is
empty whenever the git query is unavailable, times out or fails. -/
def score_one (max_lines : Nat) (churn : List (Str × Nat)) (max_churn : Nat)
    (e : FileEntry) : FileEntry :=
  { e with importance := min 1 (rawScore max_lines churn max_churn e) }

/-- Model of `_score_importance` (an empty entry list is returned
unchanged, mirroring the early return). -/
def score_importance (entries : List FileEntry) (churn : List (Str × Nat)) :
    List FileEntry :=
  match entries with
  | [] => []
  | _ => entries.map (score_one (maxLinesOf entries) churn (maxChurnOf churn))

/- Output formatting (`_format_tree`, `_format_api`, `_format_deps`,
`generate_map`, `generate_json`). -/

mutual
/-- A value in the rendering dictionary built by `_format_tree`: a file leaf
or a nested directory dictionary. -/
inductive RVal where
  | fileVal (e : FileEntry)
  | dictVal (d : RDict)
/-- An insertion-ordered dictionary (Python dicts preserve insertion order;
assigning to an existing key keeps its position). -/
inductive RDict where
  | rnil
  | rcons (name : Str) (v : RVal) (rest : RDict)
end

/-- Python `node[k] = v`: replace in place when the key exists, else append. -/
def rdictSet : RDict → Str → RVal → RDict
  | RDict.rnil, k, v => RDict.rcons k v RDict.rnil
  | RDict.rcons k2 v2 rest, k, v =>
    if k = k2 then RDict.rcons k2 v rest else RDict.rcons k2 v2 (rdictSet rest k v)

/-- Python `node[k]` dictionary lookup. -/
def rdictGet : RDict → Str → Option RVal
  | RDict.rnil, _ => none
  | RDict.rcons k2 v rest, k => if k = k2 then some v else rdictGet rest k

/-- The insertion walk of `_format_tree`: descend through the directory
components of a relative path, creating empty dictionaries as needed, and
set the file at the leaf name.  (If a file leaf occupied an intermediate
name the Python code would raise; that cannot arise for the unique relative
paths the collector produces, and the model descends into a fresh
dictionary.) -/
def insertEntry : RDict → List Str → FileEntry → RDict
  | d, [], _ => d
  | d, [last], e => rdictSet d last (RVal.fileVal e)
  | d, part :: rest, e =>
    let sub := match rdictGet d part with
      | some (RVal.dictVal sd) => sd
      | _ => RDict.rnil
    rdictSet d part (RVal.dictVal (insertEntry sub rest e))

/-- The recursive `_render` of `_format_tree`: one line per dictionary item
in insertion order, files as `star name — description`, directories as
`name/` followed by their rendered contents with an extended prefix. -/
def renderDict : RDict → Str → List Str
  | RDict.rnil, _ => []
  | RDict.rcons name v rest, pre =>
    let isLast : Bool := match rest with
      | RDict.rnil => true
      | RDict.rcons _ _ _ => false
    let connector := if isLast then str "└── " else str "├── "
    let extension := if isLast then str "    " else str "│   "
    (match v with
     | RVal.fileVal e =>
       [pre ++ connector ++ (if e.is_entrypoint then str "★ " else []) ++ name ++
        (if e.description ≠ [] then str "  — " ++ e.description else [])]
     | RVal.dictVal sd =>
       (pre ++ connector ++ name ++ ['/']) :: renderDict sd (pre ++ extension))
    ++ renderDict rest pre

/-- Model of `_format_tree`: entries sorted by relative path, those deeper
than `max_depth + 1` components dropped, inserted into the nested
dictionary, then rendered. -/
def format_tree (entries : List FileEntry) (max_depth : Nat) : Str :=
  let sorted := sortLe (fun a b => strLe a.rel_path b.rel_path) entries
  let d := sorted.foldl (fun d e =>
    let parts := splitOnChar '/' e.rel_path
    if parts.length > max_depth + 1 then d else insertEntry d parts e) RDict.rnil
  strJoin (str "\n") (renderDict d [])

/-- One function line of `_format_api` (indent `"  "` for module functions,
`"    "` for methods). -/
def funcLine (indent : Str) (f : FunctionSig) : Str :=
  indent ++ (if f.is_async then str "async " else []) ++ str "def " ++ f.name ++
    ['('] ++ f.params ++ [')'] ++
    (if f.returns ≠ [] then str " → " ++ f.returns else []) ++
    (if f.docstring ≠ [] then str "  # " ++ f.docstring else [])

/-- The class block of `_format_api`: header line, constructor line when the
constructor parameter list is non-empty, then the method lines. -/
def classLines (cls : ClassSig) : List Str :=
  [str "  class " ++ cls.name ++
    (if cls.bases ≠ [] then ['('] ++ strJoin (str ", ") cls.bases ++ [')'] else []) ++
    (if cls.docstring ≠ [] then str "  # " ++ cls.docstring else [])]
  ++ (if cls.init_params ≠ [] then
        [str "    __init__(" ++ cls.init_params ++ [')']] else [])
  ++ cls.methods.map (funcLine (str "    "))

/-- The per-module block of `_format_api`; modules without functions and
classes contribute nothing. -/
def apiLines (api : ModuleAPI) : List Str :=
  if api.functions.isEmpty && api.classes.isEmpty then []
  else
    [str "\n### " ++ api.path]
    ++ (if api.docstring ≠ [] then [['*'] ++ api.docstring ++ ['*']] else [])
    ++ (if api.exports ≠ [] then
          [str "Exports: " ++ strJoin (str ", ") api.exports] else [])
    ++ api.functions.map (funcLine (str "  "))
    ++ (api.classes.map classLines).flatten

/-- Model of `_format_api`. -/
def format_api (apis : List ModuleAPI) : Str :=
  strJoin (str "\n") (apis.map apiLines).flatten

/-- Python `defaultdict(int)` increment preserving insertion order. -/
def bumpDep : List (Str × Nat) → Str → List (Str × Nat)
  | [], k => [(k, 1)]
  | (k2, c) :: rest, k =>
    if k = k2 then (k2, c + 1) :: rest else (k2, c) :: bumpDep rest k

/-- The import-frequency table of `_format_deps`: counts of the non-stdlib
targets imported across the given modules, in first-appearance order. -/
def depCounts (apis : List ModuleAPI) : List (Str × Nat) :=
  apis.foldl (fun acc api =>
    api.imports.foldl (fun acc imp =>
      if stdlib_modules.contains imp then acc else bumpDep acc imp) acc) []

/-- Model of `_format_deps`: the table sorted by descending count (stable),
one line per dependency, or a fixed message when the table is empty. -/
def format_deps (apis : List ModuleAPI) : Str :=
  let counts := depCounts apis
  if counts.isEmpty then str "No third-party dependencies detected."
  else
    strJoin (str "\n")
      ((sortLe (fun a b => Nat.ble b.2 a.2) counts).map (fun p =>
        str "  " ++ p.1 ++ str " (used by " ++ natStr p.2 ++ str " module" ++
          (if p.2 > 1 then ['s'] else []) ++ [')']))

/-- The scored, importance-sorted entry list shared by both renderers
(`entries.sort(key=lambda e: -e.importance)`; Python sorts are stable). -/
def pipelineEntries (t : FSTree) (rootName : Str) (max_depth : Nat)
    (exclude_tests : Bool) (churn : List (Str × Nat)) : List FileEntry :=
  sortLe (fun a b => decide (b.importance ≤ a.importance))
    (score_importance (discover_files t rootName max_depth exclude_tests) churn)

/-- The API list of `generate_map`: Python files whose extraction succeeds
and yields at least one function or class, with `path` replaced by the
relative path. -/
def mapApis (entries : List FileEntry) (include_private : Bool) :
    List ModuleAPI :=
  entries.filterMap (fun e =>
    if (str ".py").isSuffixOf e.rel_path then
      match extract_python_api e.src include_private with
      | some api =>
        if !api.functions.isEmpty || !api.classes.isEmpty then
          some { api with path := e.rel_path }
        else none
      | none => none
    else none)

/-- One line of the Key Files section. -/
def hotLine (h : FileEntry) : Str :=
  str "- **" ++ h.rel_path ++ str "**" ++
    (if h.is_entrypoint then str " ★" else []) ++
    str " (" ++ natStr h.lines ++ str " lines)" ++
    (if h.description ≠ [] then str " — " ++ h.description else [])

/-- The `sections` list assembled by `generate_map` (for a non-empty entry
list): header, structure, optional Public API, optional Dependencies, and
Key Files. -/
def mapSections (t : FSTree) (rootName : Str) (max_depth : Nat)
    (include_private : Bool) (exclude_tests : Bool)
    (churn : List (Str × Nat)) : List Str :=
  let entries := pipelineEntries t rootName max_depth exclude_tests churn
  let apis := mapApis entries include_private
  let total_lines := (entries.map (fun e => e.lines)).sum
  let languages := sortLe strLe
    ((entries.filterMap (fun e =>
      if e.language ≠ [] then some e.language else none)).dedup)
  let entrypoints := entries.filterMap (fun e =>
    if e.is_entrypoint then some e.rel_path else none)
  [str "# Codebase Map: " ++ rootName ++ ['\n'],
   str "Files: " ++ natStr entries.length ++ str " | Lines: " ++
     commaFmt total_lines ++ str " | Languages: " ++ strJoin (str ", ") languages]
  ++ (if entrypoints ≠ [] then
        [str "Entrypoints: " ++ strJoin (str ", ") entrypoints] else [])
  ++ [[]]
  ++ [str "## Structure\n", str "```", format_tree entries max_depth, str "```\n"]
  ++ (let api_text := format_api apis
      if stripWs api_text ≠ [] then
        [str "## Public API\n", str "```python", api_text, str "```\n"] else [])
  ++ (let deps_text := format_deps apis
      if stripWs deps_text ≠ [] then
        [str "## Dependencies\n", deps_text, []] else [])
  ++ (let hot := (sortLe (fun a b => decide (b.importance ≤ a.importance))
        entries).take 10
      if hot.isEmpty then []
      else [str "## Key Files\n"] ++ hot.map hotLine ++ [[]])

/-- The truncation marker appended by the token-budget trimmer. -/
def trunc_marker : Str := str "\n\n... (truncated to fit token budget)"

/-- The token-budget step of `generate_map`.  The Python loop looks for the
first section starting with `## Public API` and truncates there (or leaves
the output alone when no such section exists); a budget of `none` models no
`--token-budget` argument and `0` is falsy in Python (negative budgets,
accepted by the CLI parser, are outside the model). -/
def apply_budget (sections : List Str) (token_budget : Option Nat) : Str :=
  let output := strJoin (str "\n") sections
  match token_budget with
  | none => output
  | some b =>
    if b ≠ 0 ∧ output.length / CHARS_PER_TOKEN > b then
      if sections.any (fun s => (str "## Public API").isPrefixOf s) then
        let budget_chars := b * CHARS_PER_TOKEN
        let output2 := strJoin (str "\n") sections
        if output2.length > budget_chars then
          output2.take budget_chars ++ trunc_marker
        else output2
      else output
    else output

/-- Model of `generate_map`. -/
def generate_map (t : FSTree) (rootName : Str) (max_depth : Nat)
    (include_private : Bool) (token_budget : Option Nat)
    (exclude_tests : Bool) (churn : List (Str × Nat)) : Str :=
  if (discover_files t rootName max_depth exclude_tests).isEmpty then
    str "No files found."
  else
    apply_budget
      (mapSections t rootName max_depth include_private exclude_tests churn)
      token_budget

/-- Python `round(q, 3)` idealized over rationals (the code rounds a binary
float with banker rounding; no claim inspects the rounded value). -/
def round3 (q : ℚ) : ℚ := (round (q * 1000) : ℤ) / 1000

/-- One element of the `file_tree` array of the JSON output. -/
structure FileTreeItem where
  path : Str
  lines : Nat
  language : Str
  description : Str
  importance : ℚ
  entrypoint : Bool
deriving Repr

/-- One function object of the JSON `api` array. -/
structure JsonFuncItem where
  name : Str
  params : Str
  returns : Str
  docstring : Str
  is_async : Bool
deriving Repr

/-- One class object of the JSON `api` array. -/
structure JsonClassItem where
  name : Str
  bases : List Str
  docstring : Str
  init_params : Str
  methods : List JsonFuncItem
deriving Repr

/-- One module object of the JSON `api` array. -/
structure JsonApiItem where
  module : Str
  docstring : Str
  exports : List Str
  imports : List Str
  functions : List JsonFuncItem
  classes : List JsonClassItem
deriving Repr

/-- The dictionary `generate_json` passes to `json.dumps` (serialization to
text is not modelled). -/
structure JsonOut where
  project : Str
  files : Nat
  total_lines : Nat
  languages : List Str
  entrypoints : List Str
  file_tree : List FileTreeItem
  api : List JsonApiItem
deriving Repr

/-- Projection of a FunctionSig onto the serialized function object. -/
def jsonFunc (f : FunctionSig) : JsonFuncItem :=
  { name := f.name, params := f.params, returns := f.returns,
    docstring := f.docstring, is_async := f.is_async }

/-- Projection of a ClassSig onto the serialized class object. -/
def jsonClass (c : ClassSig) : JsonClassItem :=
  { name := c.name, bases := c.bases, docstring := c.docstring,
    init_params := c.init_params, methods := c.methods.map jsonFunc }

/-- Projection of a ModuleAPI onto the serialized module object. -/
def jsonApi (a : ModuleAPI) : JsonApiItem :=
  { module := a.path, docstring := a.docstring, exports := a.exports,
    imports := a.imports, functions := a.functions.map jsonFunc,
    classes := a.classes.map jsonClass }

/-- The API list of `generate_json`: unlike `generate_map`, every
successfully extracted module is kept here (the emptiness filter is applied
later, on the `api` array itself). -/
def jsonApis (entries : List FileEntry) (include_private : Bool) :
    List ModuleAPI :=
  entries.filterMap (fun e =>
    if (str ".py").isSuffixOf e.rel_path then
      (extract_python_api e.src include_private).map
        (fun api => { api with path := e.rel_path })
    else none)

/-- Model of `generate_json`. -/
def generate_json (t : FSTree) (rootName : Str) (max_depth : Nat)
    (include_private : Bool) (exclude_tests : Bool)
    (churn : List (Str × Nat)) : JsonOut :=
  let entries := pipelineEntries t rootName max_depth exclude_tests churn
  let apis := jsonApis entries include_private
  { project := rootName,
    files := entries.length,
    total_lines := (entries.map (fun e => e.lines)).sum,
    languages := sortLe strLe
      ((entries.filterMap (fun e =>
        if e.language ≠ [] then some e.language else none)).dedup),
    entrypoints := entries.filterMap (fun e =>
      if e.is_entrypoint then some e.rel_path else none),
    file_tree := entries.map (fun e =>
      { path := e.rel_path, lines := e.lines, language := e.language,
        description := e.description, importance := round3 e.importance,
        entrypoint := e.is_entrypoint }),
    api := (apis.filter (fun a =>
      !a.functions.isEmpty || !a.classes.isEmpty)).map jsonApi }

/- Predicates used to state the claims. -/

/-- The name of a top-level (async) function definition statement, when the
statement is one. -/
def topFuncName : PyStmt → Option Str
  | PyStmt.functionDef name _ _ _ _ => some name
  | PyStmt.asyncFunctionDef name _ _ _ _ => some name
  | _ => none

/-- The rendering of one positional parameter asserted by the specification:
`name`, then `: type` when the annotation renders, then ` = default` when the
parameter carries a default (with an ellipsis placeholder when the default
does not render). -/
def specPosRender (a : PyArg) (d : Option (Option Str)) : Str :=
  (match a.annotation with
   | some (some t) => a.arg ++ str ": " ++ t
   | _ => a.arg) ++
  (match d with
   | some (some dtext) => str " = " ++ dtext
   | some none => str " = ..."
   | none => [])

/-- The rendering of one keyword-only parameter asserted by the
specification: `name`, then `: type` when the annotation renders, never a
default. -/
def specKwRender (a : PyArg) : Str :=
  match a.annotation with
  | some (some t) => a.arg ++ str ": " ++ t
  | _ => a.arg

/-- The default alignment asserted by the specification (matching the
CPython meaning of `ast.arguments.defaults`): defaults are right-aligned
over the positional parameters, so the leading `len(args) - len(defaults)`
parameters carry none and the trailing parameters carry the trailing
defaults in order. -/
def alignDefaults (args : List PyArg) (ds : List (Option Str)) :
    List (PyArg × Option (Option Str)) :=
  (args.take (args.length - ds.length)).map (fun a => (a, none)) ++
  (args.drop (args.length - ds.length)).zip
    ((ds.drop (ds.length - args.length)).map some)

/-- The rendered parameter list the claim asserts for a module-level
function: every positional parameter kept (including ones named `self` or
`cls`), then `*vararg`, keyword-only parameters, and `**kwarg`. -/
def spec_claim_params_module (args : PyArgs) : Str :=
  strJoin (str ", ")
    ((alignDefaults args.args args.defaults).map (fun p => specPosRender p.1 p.2)
      ++ (match args.vararg with
          | some v => [['*'] ++ v]
          | none => [])
      ++ args.kwonlyargs.map specKwRender
      ++ (match args.kwarg with
          | some k => [str "**" ++ k]
          | none => []))

/-- The amended rendered parameter list: as the claim states it, except that
every positional parameter named `self` or `cls` is excluded, wherever it
occurs and also in module-level functions. -/
def spec_amended_params (args : PyArgs) : Str :=
  strJoin (str ", ")
    ((alignDefaults args.args args.defaults).filterMap (fun p =>
        if p.1.arg = str "self" ∨ p.1.arg = str "cls" then none
        else some (specPosRender p.1 p.2))
      ++ (match args.vararg with
          | some v => [['*'] ++ v]
          | none => [])
      ++ args.kwonlyargs.map specKwRender
      ++ (match args.kwarg with
          | some k => [str "**" ++ k]
          | none => []))

/-- A subdirectory list contains a directory of a certain name and subtree. -/
inductive DirAt : FSDirs → Str → FSTree → Prop where
  | head (d : Str) (sub : FSTree) (rest : FSDirs) :
      DirAt (FSDirs.dcons d sub rest) d sub
  | tail {rest : FSDirs} {d : Str} {sub : FSTree} (d2 : Str) (sub2 : FSTree) :
      DirAt rest d sub → DirAt (FSDirs.dcons d2 sub2 rest) d sub

/-- A file sits in a tree under the directory components `ds`. -/
inductive FileAt : FSTree → List Str → SrcFile → Prop where
  | here {dirs : FSDirs} {files : List SrcFile} {f : SrcFile} :
      f ∈ files → FileAt (FSTree.node dirs files) [] f
  | there {dirs : FSDirs} {files : List SrcFile} {d : Str} {sub : FSTree}
      {parts : List Str} {f : SrcFile} :
      DirAt dirs d sub → FileAt sub parts f →
      FileAt (FSTree.node dirs files) (d :: parts) f

mutual
/-- Well-formedness of a tree for path reasoning: no name contains the path
separator (the operating system guarantees this for real file systems). -/
def treeNamesOk : FSTree → Prop
  | FSTree.node dirs files =>
    dirsNamesOk dirs ∧ ∀ f ∈ files, ('/' : Char) ∉ f.name
/-- Well-formedness of a subdirectory list. -/
def dirsNamesOk : FSDirs → Prop
  | FSDirs.dnil => True
  | FSDirs.dcons d sub rest =>
    (('/' : Char) ∉ d) ∧ treeNamesOk sub ∧ dirsNamesOk rest
end

instance : Inhabited FileEntry :=
  ⟨{ src := { name := [] }, rel_path := [] }⟩

/- Concrete instances used by witnesses and counterexamples. -/

/-- A tree with one subdirectory `a` holding `b.py`, for the depth witness. -/
def treeDepth1 : FSTree :=
  FSTree.node
    (FSDirs.dcons ['a']
      (FSTree.node FSDirs.dnil
        [{ name := str "b.py", size := 10, content := str "x = 1" }])
      FSDirs.dnil)
    []

/-- A tree whose root holds a plain file, a hidden file, a lock file, a 2 MB
file and an excluded directory, for the filtering witness. -/
def treeFiltering : FSTree :=
  FSTree.node
    (FSDirs.dcons (str "__pycache__")
      (FSTree.node FSDirs.dnil [{ name := str "c.pyc", size := 3 }])
      FSDirs.dnil)
    [{ name := str ".hidden", size := 1 },
     { name := str "a.md", size := 5, content := str "# doc" },
     { name := str "big.bin", size := 2000000 },
     { name := str "yarn.lock", size := 9 }]

/-- A tree with one extensionless file that starts with a comment, for the
unrecognized-language witness. -/
def treeNoLang : FSTree :=
  FSTree.node FSDirs.dnil
    [{ name := str "LICENSE", size := 7, content := str "# MIT license" }]

/-- A tree with a single markdown file (so the narrative output has no
Public API section). -/
def treeMdOnly : FSTree :=
  FSTree.node FSDirs.dnil [{ name := str "a.md", size := 5, content := [] }]

/-- A tree with a single Python file declaring one public function (so the
narrative output has a Public API section). -/
def treePyFunc : FSTree :=
  FSTree.node FSDirs.dnil
    [{ name := str "a.py", size := 4, content := str "x=1\n",
       pyParse := some { body := [PyStmt.functionDef ['f'] {} none [] []] } }]

/-- A tree with one Python file whose source fails to parse. -/
def treeBadPy : FSTree :=
  FSTree.node FSDirs.dnil
    [{ name := str "bad.py", size := 8, content := str "def (", pyParse := none }]

/-- A parseable module with imports and exports but no functions and no
classes. -/
def moduleOnlyImports : PyModule :=
  { body := [PyStmt.importStmt [str "numpy"],
             PyStmt.assignStmt [AssignTarget.nameTgt (str "__all__")]
               (AssignVal.seqVal [SeqElt.eltStr ['x']])] }

/-- A tree with one Python file carrying `moduleOnlyImports`. -/
def treeImportsOnly : FSTree :=
  FSTree.node FSDirs.dnil
    [{ name := str "e.py", size := 12, content := str "import numpy",
       pyParse := some moduleOnlyImports }]

/-- An argument list whose only positional parameter is named `self`, on a
module-level function. -/
def argsSelfOnly : PyArgs := { args := [{ arg := str "self" }] }

/-- A module with one public top-level function `f(self)`. -/
def moduleSelfFunc : PyModule :=
  { body := [PyStmt.functionDef ['f'] argsSelfOnly none [] []] }

/-- A Python file carrying `moduleSelfFunc`. -/
def fileSelfFunc : SrcFile :=
  { name := str "s.py", size := 20, content := str "def f(self): pass",
    pyParse := some moduleSelfFunc }

/-- A module with exactly one underscore-prefixed and one plain top-level
function. -/
def moduleTwoFuncs : PyModule :=
  { body := [PyStmt.functionDef (str "_hidden") {} none [] [],
             PyStmt.functionDef (str "shown") {} none [] []] }

/-- A Python file carrying `moduleTwoFuncs`. -/
def fileTwoFuncs : SrcFile :=
  { name := str "two.py", size := 40, content := str "def shown(): pass",
    pyParse := some moduleTwoFuncs }

/-- A minimal file entry: a root-level file named `x` with no content. -/
def entryX : FileEntry :=
  { src := { name := ['x'] }, rel_path := ['x'] }

/-- A root-level entry flagged as an entrypoint, for the scoring comparison. -/
def entryMainOn : FileEntry :=
  { src := { name := str "main.py" }, rel_path := str "main.py",
    size := 100, lines := 10, language := str "Python", is_entrypoint := true }

/-- The same record with the entrypoint flag off. -/
def entryMainOff : FileEntry :=
  { src := { name := str "main.py" }, rel_path := str "main.py",
    size := 100, lines := 10, language := str "Python", is_entrypoint := false }

/- Theorems. -/

theorem mem_insertLe {α : Type} (le : α → α → Bool) (a x : α) :
    ∀ l : List α, x ∈ insertLe le a l ↔ x = a ∨ x ∈ l := by
  intro l
  induction l with
  | nil => simp [insertLe]
  | cons b bs ih =>
    by_cases h : le a b = true
    · simp [insertLe, h]
    · simp only [insertLe, h, if_false, Bool.false_eq_true, List.mem_cons, ih]
      tauto

theorem mem_sortLe {α : Type} (le : α → α → Bool) (x : α) :
    ∀ l : List α, x ∈ sortLe le l ↔ x ∈ l := by
  intro l
  induction l with
  | nil => simp [sortLe]
  | cons a as ih =>
    simp only [sortLe, mem_insertLe, ih, List.mem_cons]

theorem init_le_foldl_max : ∀ (l : List Nat) (i : Nat), i ≤ l.foldl max i := by
  intro l
  induction l with
  | nil => intro i; exact Nat.le_refl i
  | cons x xs ih =>
    intro i
    exact Nat.le_trans (Nat.le_max_left i x) (ih (max i x))

theorem mem_le_foldl_max {a : Nat} :
    ∀ {l : List Nat}, a ∈ l → ∀ i : Nat, a ≤ l.foldl max i := by
  intro l
  induction l with
  | nil => intro h; cases h
  | cons x xs ih =>
    intro h i
    rcases List.mem_cons.1 h with rfl | h2
    · exact Nat.le_trans (Nat.le_max_right i a) (init_le_foldl_max xs (max i a))
    · exact ih h2 (max i x)

theorem foldl_max_init_mono (l : List Nat) :
    ∀ i j : Nat, i ≤ j → l.foldl max i ≤ l.foldl max j := by
  induction l with
  | nil => intro i j h; exact h
  | cons x xs ih =>
    intro i j h
    exact ih (max i x) (max j x) (by omega)

theorem lines_le_maxLinesOf {e : FileEntry} {entries : List FileEntry}
    (h : e ∈ entries) : e.lines ≤ maxLinesOf entries := by
  have hm : e.lines ≤ (entries.map (fun e => e.lines)).foldl max 0 :=
    mem_le_foldl_max (List.mem_map_of_mem _ h) 0
  unfold maxLinesOf
  split
  · omega
  · exact hm

theorem one_le_maxLinesOf (entries : List FileEntry) : 1 ≤ maxLinesOf entries := by
  unfold maxLinesOf
  split
  · exact Nat.le_refl 1
  · omega

theorem lookup_le_maxChurnOf {p : Str} {c : Nat} :
    ∀ {churn : List (Str × Nat)},
      churn.lookup p = some c → c ≤ maxChurnOf churn := by
  intro churn
  induction churn with
  | nil => intro h; simp [List.lookup] at h
  | cons kv rest ih =>
    intro h
    rw [show (kv : Str × Nat) = (kv.1, kv.2) from rfl] at h
    rw [List.lookup] at h
    unfold maxChurnOf
    simp only [List.isEmpty_cons, Bool.false_eq_true, if_false]
    by_cases hk : (p == kv.1) = true
    · simp only [hk, if_true] at h
      cases h
      exact mem_le_foldl_max (List.mem_map_of_mem _ (List.mem_cons_self _ _)) 0
    · simp only [hk, Bool.false_eq_true, if_false] at h
      have hrest : c ≤ maxChurnOf rest := ih h
      have hne : rest ≠ [] := by
        intro hnil; rw [hnil] at h; simp [List.lookup] at h
      unfold maxChurnOf at hrest
      rw [if_neg (by simpa [List.isEmpty_iff] using hne)] at hrest
      calc c ≤ (rest.map (fun c => c.2)).foldl max 0 := hrest
        _ ≤ (rest.map (fun c => c.2)).foldl max (max 0 kv.2) :=
            foldl_max_init_mono _ 0 (max 0 kv.2) (Nat.zero_le _)
        _ = ((kv :: rest).map (fun c => c.2)).foldl max 0 := rfl

theorem churnBonus_nonneg (churn : List (Str × Nat)) (mc : Nat) (p : Str) :
    0 ≤ churnBonus churn mc p := by
  unfold churnBonus
  cases churn.lookup p with
  | none => exact le_refl 0
  | some c => positivity

theorem churnBonus_le (churn : List (Str × Nat)) (p : Str) :
    churnBonus churn (maxChurnOf churn) p ≤ 2/10 := by
  unfold churnBonus
  cases hl : churn.lookup p with
  | none => norm_num
  | some c =>
    have hc : c ≤ maxChurnOf churn := lookup_le_maxChurnOf hl
    rcases Nat.eq_zero_or_pos (maxChurnOf churn) with hz | hp
    · have hc0 : c = 0 := by omega
      subst hc0
      norm_num
    · have h1 : ((c : ℚ) / (maxChurnOf churn : ℚ)) ≤ 1 := by
        rw [div_le_one (by exact_mod_cast hp)]
        exact_mod_cast hc
      nlinarith

theorem langBonus_nonneg (lang : Str) : 0 ≤ langBonus lang := by
  unfold langBonus; split_ifs <;> norm_num

theorem langBonus_le (lang : Str) : langBonus lang ≤ 2/10 := by
  unfold langBonus; split_ifs <;> norm_num

theorem rawScore_nonneg (ml : Nat) (churn : List (Str × Nat)) (mc : Nat)
    (e : FileEntry) : 0 ≤ rawScore ml churn mc e := by
  unfold rawScore
  have h1 := langBonus_nonneg e.language
  have h2 := churnBonus_nonneg churn mc e.rel_path
  have h3 : (0:ℚ) ≤ ((e.lines : ℚ) / (ml : ℚ)) * (2/10) := by positivity
  split_ifs <;> linarith

/-- The sum of every contribution other than the entrypoint bonus is at most
0.75 (each addend is individually bounded, within a real scoring run). -/
theorem restScore_le {entries : List FileEntry} {churn : List (Str × Nat)}
    {e : FileEntry} (he : e ∈ entries) (hflag : e.is_entrypoint = false) :
    rawScore (maxLinesOf entries) churn (maxChurnOf churn) e ≤ 3/4 := by
  unfold rawScore
  rw [hflag]
  have h1 := langBonus_le e.language
  have h2 := churnBonus_le churn e.rel_path
  have h3 : ((e.lines : ℚ) / (maxLinesOf entries : ℚ)) * (2/10) ≤ 2/10 := by
    have hml := one_le_maxLinesOf entries
    have hle := lines_le_maxLinesOf he
    have : ((e.lines : ℚ) / (maxLinesOf entries : ℚ)) ≤ 1 := by
      rw [div_le_one (by exact_mod_cast hml)]
      exact_mod_cast hle
    nlinarith
  simp only [Bool.false_eq_true, if_false]
  split_ifs <;> linarith

/-- C8: after the scoring stage, every entry's importance lies in the closed
interval [0, 1], for every input entry list and every churn table. -/
theorem claim_C8 (entries : List FileEntry) (churn : List (Str × Nat))
    (e : FileEntry) (he : e ∈ score_importance entries churn) :
    0 ≤ e.importance ∧ e.importance ≤ 1 := by
  unfold score_importance at he
  rcases entries with _ | ⟨x, xs⟩
  · cases he
  · rcases List.mem_map.1 he with ⟨y, _, rfl⟩
    constructor
    · exact le_min (by norm_num)
        (rawScore_nonneg (maxLinesOf (x :: xs)) churn (maxChurnOf churn) y)
    · exact min_le_left _ _

/-- Witness for C8 at a concrete one-entry run. -/
theorem claim_C8_witness :
    0 ≤ (score_one (maxLinesOf [entryX]) [] (maxChurnOf []) entryX).importance ∧
    (score_one (maxLinesOf [entryX]) [] (maxChurnOf []) entryX).importance ≤ 1 :=
  claim_C8 [entryX] [] _ (List.mem_cons_self _ _)

/-- C2: two records scored in the same run (same maximum line count and same
churn table) that agree on every field except the entrypoint flag satisfy a
strict inequality: the flagged record scores strictly higher. -/
theorem claim_C2 (entries : List FileEntry) (churn : List (Str × Nat))
    (e1 e2 : FileEntry) (h1 : e1 ∈ entries) (h2 : e2 ∈ entries)
    (hsrc : e1.src = e2.src) (hrel : e1.rel_path = e2.rel_path)
    (hsize : e1.size = e2.size) (hlines : e1.lines = e2.lines)
    (hdesc : e1.description = e2.description)
    (hlang : e1.language = e2.language)
    (himp : e1.importance = e2.importance)
    (hf1 : e1.is_entrypoint = true) (hf2 : e2.is_entrypoint = false) :
    (score_one (maxLinesOf entries) churn (maxChurnOf churn) e2).importance <
    (score_one (maxLinesOf entries) churn (maxChurnOf churn) e1).importance := by
  have hR : rawScore (maxLinesOf entries) churn (maxChurnOf churn) e1 =
      3/10 + rawScore (maxLinesOf entries) churn (maxChurnOf churn) e2 := by
    unfold rawScore
    rw [hf1, hf2, hrel, hlines, hdesc, hlang]
    simp only [Bool.false_eq_true, if_false, if_true]
    ring
  set R := rawScore (maxLinesOf entries) churn (maxChurnOf churn) e2 with hRdef
  have hRle : R ≤ 3/4 := restScore_le h2 hf2
  have hRnn : 0 ≤ R :=
    rawScore_nonneg (maxLinesOf entries) churn (maxChurnOf churn) e2
  show min 1 R < min 1 (rawScore (maxLinesOf entries) churn (maxChurnOf churn) e1)
  rw [hR]
  rw [min_eq_right (by linarith : R ≤ (1:ℚ))]
  rcases le_or_lt (3/10 + R) 1 with hle | hgt
  · rw [min_eq_right hle]; linarith
  · rw [min_eq_left (by linarith : (1:ℚ) ≤ 3/10 + R)]; linarith

/-- Witness for C2 at a concrete two-entry run. -/
theorem claim_C2_witness :
    (score_one (maxLinesOf [entryMainOn, entryMainOff]) []
      (maxChurnOf []) entryMainOff).importance <
    (score_one (maxLinesOf [entryMainOn, entryMainOff]) []
      (maxChurnOf []) entryMainOn).importance :=
  claim_C2 [entryMainOn, entryMainOff] [] entryMainOn entryMainOff
    (List.mem_cons_self _ _) (List.mem_cons_of_mem _ (List.mem_cons_self _ _))
    rfl rfl rfl rfl rfl rfl rfl rfl rfl

theorem funcsOfBody_lengths : ∀ body : List PyStmt,
    (funcsOfBody true body).length = (body.filterMap topFuncName).length ∧
    (funcsOfBody false body).length +
      (body.filterMap topFuncName).countP (fun n => ['_'].isPrefixOf n) =
      (body.filterMap topFuncName).length := by
  intro body
  induction body with
  | nil => exact ⟨rfl, rfl⟩
  | cons st rest ih =>
    obtain ⟨ih1, ih2⟩ := ih
    cases st with
    | functionDef n a r d b =>
      constructor
      · simpa [funcsOfBody, funcOfStmt, topFuncName, List.filterMap_cons]
          using ih1
      · by_cases hp : ['_'] <+: n
        · simp only [funcsOfBody, funcOfStmt, topFuncName,
            List.filterMap_cons, List.countP_cons] at ih2 ⊢
          simp [hp]
          omega
        · simp only [funcsOfBody, funcOfStmt, topFuncName,
            List.filterMap_cons, List.countP_cons] at ih2 ⊢
          simp [hp]
          omega
    | asyncFunctionDef n a r d b =>
      constructor
      · simpa [funcsOfBody, funcOfStmt, topFuncName, List.filterMap_cons]
          using ih1
      · by_cases hp : ['_'] <+: n
        · simp only [funcsOfBody, funcOfStmt, topFuncName,
            List.filterMap_cons, List.countP_cons] at ih2 ⊢
          simp [hp]
          omega
        · simp only [funcsOfBody, funcOfStmt, topFuncName,
            List.filterMap_cons, List.countP_cons] at ih2 ⊢
          simp [hp]
          omega
    | assignStmt t v =>
      refine ⟨?_, ?_⟩ <;>
        simpa [funcsOfBody, funcOfStmt, topFuncName, List.filterMap_cons]
          using And.intro ih1 ih2 |>.elim (fun a b => by first | exact a | exact b)
    | importStmt ns =>
      exact ⟨by simpa [funcsOfBody, funcOfStmt, topFuncName,
          List.filterMap_cons] using ih1,
        by simpa [funcsOfBody, funcOfStmt, topFuncName,
          List.filterMap_cons] using ih2⟩
    | importFromStmt m =>
      exact ⟨by simpa [funcsOfBody, funcOfStmt, topFuncName,
          List.filterMap_cons] using ih1,
        by simpa [funcsOfBody, funcOfStmt, topFuncName,
          List.filterMap_cons] using ih2⟩
    | classDef n b2 c =>
      exact ⟨by simpa [funcsOfBody, funcOfStmt, topFuncName,
          List.filterMap_cons] using ih1,
        by simpa [funcsOfBody, funcOfStmt, topFuncName,
          List.filterMap_cons] using ih2⟩
    | exprStmt v =>
      exact ⟨by simpa [funcsOfBody, funcOfStmt, topFuncName,
          List.filterMap_cons] using ih1,
        by simpa [funcsOfBody, funcOfStmt, topFuncName,
          List.filterMap_cons] using ih2⟩
    | otherStmt =>
      exact ⟨by simpa [funcsOfBody, funcOfStmt, topFuncName,
          List.filterMap_cons] using ih1,
        by simpa [funcsOfBody, funcOfStmt, topFuncName,
          List.filterMap_cons] using ih2⟩

/-- C5: a parseable Python file whose top level contains exactly one
underscore-prefixed and one plain function yields exactly one extracted
module-level function by default and exactly two with include-private. -/
theorem claim_C5 (f : SrcFile) (m : PyModule) (hp : f.pyParse = some m)
    (h1 : (m.body.filterMap topFuncName).countP
      (fun n => ['_'].isPrefixOf n) = 1)
    (h2 : (m.body.filterMap topFuncName).length = 2) :
    (extract_python_api f false).map (fun a => a.functions.length) = some 1 ∧
    (extract_python_api f true).map (fun a => a.functions.length) = some 2 := by
  obtain ⟨ht, hf⟩ := funcsOfBody_lengths m.body
  unfold extract_python_api
  rw [hp]
  constructor
  · simp only [Option.map_some]
    have : (funcsOfBody false m.body).length = 1 := by omega
    simpa using this
  · simp only [Option.map_some]
    have : (funcsOfBody true m.body).length = 2 := by omega
    simpa using this

/-- Witness for C5 at a concrete two-function module. -/
theorem claim_C5_witness :
    (extract_python_api fileTwoFuncs false).map
      (fun a => a.functions.length) = some 1 ∧
    (extract_python_api fileTwoFuncs true).map
      (fun a => a.functions.length) = some 2 :=
  claim_C5 fileTwoFuncs moduleTwoFuncs rfl (by decide) (by decide)

theorem renderPosArg_spec (offset : Int) (ds : List (Option Str)) (i : Nat)
    (a : PyArg) :
    renderPosArg offset ds i a =
      specPosRender a
        (if 0 ≤ (i : Int) - offset ∧ (i : Int) - offset < (ds.length : Int)
         then some (ds.getD ((i : Int) - offset).toNat none) else none) := by
  unfold renderPosArg specPosRender
  by_cases h : 0 ≤ (i : Int) - offset ∧ (i : Int) - offset < (ds.length : Int)
  · rw [if_pos h, if_pos h]
    cases ds.getD ((i : Int) - offset).toNat none <;> rfl
  · rw [if_neg h, if_neg h]

/-- The self/cls filtering-and-rendering step shared by the claim-side
formalization. -/
def renderUnlessSelf (p : PyArg × Option (Option Str)) : Option Str :=
  if p.1.arg = str "self" ∨ p.1.arg = str "cls" then none
  else some (specPosRender p.1 p.2)

theorem posParts_align :
    ∀ (r : List PyArg) (ds : List (Option Str)) (offset : Int) (i : Nat),
      (i : Int) - offset = (ds.length : Int) - (r.length : Int) →
      posParts offset ds i r = (alignDefaults r ds).filterMap renderUnlessSelf := by
  intro r
  induction r with
  | nil =>
    intro ds offset i _
    simp [posParts, alignDefaults]
  | cons a rest ih =>
    intro ds offset i h
    have hrec := ih ds offset (i + 1) (by
      simp only [List.length_cons] at h ⊢
      push_cast at h ⊢
      omega)
    by_cases hA : ds.length < (a :: rest).length
    · have hdi : (i : Int) - offset < 0 := by
        rw [h]
        simp only [List.length_cons] at hA ⊢
        push_cast
        omega
      have halign : alignDefaults (a :: rest) ds =
          (a, none) :: alignDefaults rest ds := by
        unfold alignDefaults
        have hk : (a :: rest).length - ds.length =
            (rest.length - ds.length) + 1 := by
          simp only [List.length_cons] at hA ⊢
          omega
        have h2 : ds.length - (a :: rest).length = 0 := by
          simp only [List.length_cons] at hA ⊢
          omega
        have h3 : ds.length - rest.length = 0 := by
          simp only [List.length_cons] at hA
          omega
        rw [hk, h2, h3, List.take_succ_cons, List.drop_succ_cons]
        simp
      rw [halign]
      show (if a.arg = str "self" ∨ a.arg = str "cls" then []
            else [renderPosArg offset ds i a]) ++ posParts offset ds (i + 1) rest
          = _
      rw [List.filterMap_cons]
      by_cases hself : a.arg = str "self" ∨ a.arg = str "cls"
      · rw [if_pos hself]
        show posParts offset ds (i + 1) rest = _
        rw [hrec]
        unfold renderUnlessSelf
        rw [if_pos hself]
      · rw [if_neg hself]
        unfold renderUnlessSelf
        rw [if_neg hself]
        rw [renderPosArg_spec]
        rw [if_neg (by omega)]
        rw [hrec]
        rfl
    · have hge : (a :: rest).length ≤ ds.length := Nat.le_of_not_lt hA
      have hdi0 : 0 ≤ (i : Int) - offset := by
        rw [h]
        simp only [List.length_cons] at hge ⊢
        push_cast
        omega
      have hdilt : (i : Int) - offset < (ds.length : Int) := by
        rw [h]
        simp only [List.length_cons]
        push_cast
        omega
      have hnat : ((i : Int) - offset).toNat = ds.length - (a :: rest).length := by
        rw [h]
        simp only [List.length_cons] at hge ⊢
        push_cast
        omega
      have hlt : ds.length - (a :: rest).length < ds.length := by
        simp only [List.length_cons] at hge ⊢
        omega
      have halign : alignDefaults (a :: rest) ds =
          (a, some (ds.getD (ds.length - (a :: rest).length) none)) ::
            alignDefaults rest ds := by
        unfold alignDefaults
        have hk : (a :: rest).length - ds.length = 0 := by
          simp only [List.length_cons] at hge ⊢
          omega
        have hk2 : rest.length - ds.length = 0 := by
          simp only [List.length_cons] at hge
          omega
        rw [hk, hk2, List.take_zero, List.drop_zero, List.take_zero,
          List.drop_zero]
        have hdrop : ds.drop (ds.length - (a :: rest).length) =
            ds.getD (ds.length - (a :: rest).length) none ::
              ds.drop (ds.length - rest.length) := by
          rw [List.getD_eq_getElem ds none hlt]
          rw [List.drop_eq_getElem_cons hlt]
          have hstep : ds.length - (a :: rest).length + 1 =
              ds.length - rest.length := by
            simp only [List.length_cons] at hge ⊢
            omega
          rw [hstep]
        rw [hdrop]
        simp
      rw [halign]
      show (if a.arg = str "self" ∨ a.arg = str "cls" then []
            else [renderPosArg offset ds i a]) ++ posParts offset ds (i + 1) rest
          = _
      rw [List.filterMap_cons]
      by_cases hself : a.arg = str "self" ∨ a.arg = str "cls"
      · rw [if_pos hself]
        show posParts offset ds (i + 1) rest = _
        rw [hrec]
        unfold renderUnlessSelf
        rw [if_pos hself]
      · rw [if_neg hself]
        unfold renderUnlessSelf
        rw [if_neg hself]
        rw [renderPosArg_spec]
        rw [if_pos ⟨hdi0, hdilt⟩, hnat]
        rw [hrec]
        rfl

/-- C6 (amended): for every argument record, the rendered parameter list of
`_format_params` is exactly the specification rendering, except that every
positional parameter named `self` or `cls` is excluded — wherever it occurs,
and also in module-level functions. -/
theorem claim_C6 (args : PyArgs) :
    format_params args = spec_amended_params args := by
  unfold format_params spec_amended_params
  rw [posParts_align args.args args.defaults
    ((args.args.length : Int) - (args.defaults.length : Int)) 0
    (by push_cast; ring)]
  have hkw : renderKwOnly = specKwRender := by
    funext a
    rfl
  rw [hkw]
  rfl

/-- Counterexample for C6 as stated: the module-level function `f(self)` is
extracted with an empty parameter list, while the claim asserts the rendered
list keeps the parameter `self`. -/
theorem claim_C6_counterexample :
    (extract_python_api fileSelfFunc false).map
      (fun a => a.functions.map (fun g => g.params)) = some [[]] ∧
    spec_claim_params_module argsSelfOnly = str "self" ∧
    ¬ ([] : Str) = str "self" := by
  refine ⟨by decide, by decide, by decide⟩

theorem processFile_eq {relParts : List Str} {pn : Str} {ex : Bool}
    {f : SrcFile} {e : FileEntry}
    (h : processFile relParts pn ex f = some e) :
    e.src = f ∧ e.rel_path = strJoin ['/'] (relParts ++ [f.name]) ∧
    e.size = f.size ∧ e.language = detect_language f.name ∧
    e.description = (if detect_language f.name ≠ [] then
      get_description f.content else []) ∧
    SKIP_FILES.contains f.name = false ∧ ['.'].isPrefixOf f.name = false ∧
    (ex && is_test_file f.name pn) = false ∧ f.size ≤ 1000000 := by
  unfold processFile at h
  by_cases h1 : (SKIP_FILES.contains f.name || ['.'].isPrefixOf f.name) = true
  · rw [if_pos h1] at h
    cases h
  · rw [if_neg h1] at h
    by_cases h2 : (ex && is_test_file f.name pn) = true
    · rw [if_pos h2] at h
      cases h
    · rw [if_neg h2] at h
      by_cases h3 : f.size > 1000000
      · rw [if_pos h3] at h
        cases h
      · rw [if_neg h3] at h
        injection h with h4
        subst h4
        rw [Bool.not_eq_true] at h1 h2
        obtain ⟨ha, hb⟩ := Bool.or_eq_false_iff.1 h1
        exact ⟨rfl, rfl, rfl, rfl, rfl, ha, hb, h2, by omega⟩

theorem processFile_some {relParts : List Str} {pn : Str} {ex : Bool}
    {f : SrcFile}
    (h1 : SKIP_FILES.contains f.name = false)
    (h2 : ['.'].isPrefixOf f.name = false)
    (h3 : (ex && is_test_file f.name pn) = false)
    (h4 : f.size ≤ 1000000) :
    processFile relParts pn ex f = some
      { src := f, rel_path := strJoin ['/'] (relParts ++ [f.name]),
        size := f.size, lines := count_lines f.content,
        description := if detect_language f.name ≠ [] then
          get_description f.content else [],
        language := detect_language f.name,
        is_entrypoint := is_entrypoint f.name
          (if (str ".py").isSuffixOf f.name then f.content else []),
        importance := 0 } := by
  unfold processFile
  rw [if_neg (by simp only [h1, h2]; decide), if_neg (by simp only [h3]; decide),
    if_neg (by omega)]

mutual
theorem walkNode_spec (md : Nat) (ex : Bool) (rn : Str) :
    ∀ (t : FSTree) (relParts : List Str) (e : FileEntry),
      e ∈ walkNode md ex rn t relParts →
      ∃ (ds : List Str) (f : SrcFile),
        FileAt t ds f ∧ (∀ p ∈ ds, keepDir p = true) ∧
        relParts.length + ds.length ≤ md ∧
        processFile (relParts ++ ds)
          (parentDirName rn (relParts ++ ds)) ex f = some e
  | FSTree.node dirs files, relParts, e, he => by
    simp only [walkNode] at he
    by_cases hd : relParts.length > md
    · rw [if_pos hd] at he
      cases he
    · rw [if_neg hd] at he
      rcases List.mem_append.1 he with hmem | hmem
      · rcases List.mem_filterMap.1 hmem with ⟨f, hf, hp⟩
        refine ⟨[], f, FileAt.here ((mem_sortLe _ _ _).1 hf), by simp,
          by simp only [List.length_nil]; omega, ?_⟩
        simpa using hp
      · rcases walkDirs_spec md ex rn dirs relParts e hmem with
          ⟨d, sub, hda, hkeep, ds, f, hat, hkall, hlen, hp⟩
        refine ⟨d :: ds, f, FileAt.there hda hat, ?_, ?_, ?_⟩
        · intro p hp2
          rcases List.mem_cons.1 hp2 with rfl | hp3
          · exact hkeep
          · exact hkall p hp3
        · simp only [List.length_append, List.length_cons,
            List.length_nil] at hlen ⊢
          omega
        · rw [show relParts ++ d :: ds = (relParts ++ [d]) ++ ds by simp]
          exact hp

theorem walkDirs_spec (md : Nat) (ex : Bool) (rn : Str) :
    ∀ (dirs : FSDirs) (relParts : List Str) (e : FileEntry),
      e ∈ walkDirs md ex rn dirs relParts →
      ∃ (d : Str) (sub : FSTree), DirAt dirs d sub ∧ keepDir d = true ∧
        ∃ (ds : List Str) (f : SrcFile),
          FileAt sub ds f ∧ (∀ p ∈ ds, keepDir p = true) ∧
          (relParts ++ [d]).length + ds.length ≤ md ∧
          processFile ((relParts ++ [d]) ++ ds)
            (parentDirName rn ((relParts ++ [d]) ++ ds)) ex f = some e
  | FSDirs.dnil, _, e, he => by
    simp only [walkDirs] at he
    cases he
  | FSDirs.dcons d sub rest, relParts, e, he => by
    simp only [walkDirs] at he
    rcases List.mem_append.1 he with hmem | hmem
    · by_cases hk : keepDir d = true
      · rw [if_pos hk] at hmem
        rcases walkNode_spec md ex rn sub (relParts ++ [d]) e hmem with
          ⟨ds, f, hat, hkall, hlen, hp⟩
        exact ⟨d, sub, DirAt.head d sub rest, hk, ds, f, hat, hkall, hlen, hp⟩
      · rw [if_neg hk] at hmem
        cases hmem
    · rcases walkDirs_spec md ex rn rest relParts e hmem with
        ⟨d2, sub2, hda, hkeep, rest2⟩
      exact ⟨d2, sub2, DirAt.tail d sub hda, hkeep, rest2⟩
end

theorem mem_walkDirs_of_dirAt (md : Nat) (ex : Bool) (rn : Str) :
    ∀ {dirs : FSDirs} {d : Str} {sub : FSTree}, DirAt dirs d sub →
      ∀ (relParts : List Str) {e : FileEntry}, keepDir d = true →
      e ∈ walkNode md ex rn sub (relParts ++ [d]) →
      e ∈ walkDirs md ex rn dirs relParts := by
  intro dirs d sub hda
  induction hda with
  | head d sub rest =>
    intro relParts e hk he
    simp only [walkDirs]
    apply List.mem_append_left
    rw [if_pos hk]
    exact he
  | tail d2 sub2 hda ih =>
    intro relParts e hk he
    simp only [walkDirs]
    exact List.mem_append_right _ (ih relParts hk he)

theorem mem_walkNode_of_fileAt (md : Nat) (ex : Bool) (rn : Str) :
    ∀ {t : FSTree} {ds : List Str} {f : SrcFile}, FileAt t ds f →
      ∀ (relParts : List Str) {e : FileEntry},
      (∀ p ∈ ds, keepDir p = true) →
      relParts.length + ds.length ≤ md →
      processFile (relParts ++ ds)
        (parentDirName rn (relParts ++ ds)) ex f = some e →
      e ∈ walkNode md ex rn t relParts := by
  intro t ds f hat
  induction hat with
  | here hf =>
    intro relParts e _ hlen hp
    simp only [walkNode]
    rw [if_neg (by simp at hlen; omega)]
    apply List.mem_append_left
    apply List.mem_filterMap.2
    refine ⟨_, (mem_sortLe _ _ _).2 hf, ?_⟩
    simpa using hp
  | there hda hsub ih =>
    intro relParts e hkall hlen hp
    simp only [walkNode]
    rw [if_neg (by simp only [List.length_cons] at hlen; omega)]
    apply List.mem_append_right
    rename_i dirs files d sub parts f2
    refine mem_walkDirs_of_dirAt md ex rn hda relParts
      (hkall d (List.mem_cons_self d parts)) ?_
    apply ih
    · intro p hp2
      exact hkall p (List.mem_cons_of_mem _ hp2)
    · simp only [List.length_append, List.length_cons, List.length_nil]
      simp only [List.length_cons] at hlen
      omega
    · rw [show (relParts ++ [d]) ++ parts = relParts ++ d :: parts by simp]
      exact hp

theorem dirAt_namesOk : ∀ {dirs : FSDirs} {d : Str} {sub : FSTree},
    DirAt dirs d sub → dirsNamesOk dirs →
    (('/' : Char) ∉ d) ∧ treeNamesOk sub := by
  intro dirs d sub h
  induction h with
  | head d sub rest => intro hok; exact ⟨hok.1, hok.2.1⟩
  | tail d2 sub2 h ih => intro hok; exact ih hok.2.2

theorem fileAt_namesOk : ∀ {t : FSTree} {ds : List Str} {f : SrcFile},
    FileAt t ds f → treeNamesOk t →
    (∀ p ∈ ds, ('/' : Char) ∉ p) ∧ ('/' : Char) ∉ f.name := by
  intro t ds f h
  induction h with
  | here hf =>
    intro hok
    exact ⟨by simp, hok.2 _ hf⟩
  | there hda hsub ih =>
    intro hok
    obtain ⟨hd, hsubok⟩ := dirAt_namesOk hda hok.1
    obtain ⟨hall, hf⟩ := ih hsubok
    refine ⟨?_, hf⟩
    intro p hp
    rcases List.mem_cons.1 hp with rfl | hp2
    · exact hd
    · exact hall p hp2

theorem count_strJoin : ∀ (parts : List Str),
    (∀ p ∈ parts, ('/' : Char) ∉ p) →
    (strJoin ['/'] parts).count '/' = parts.length - 1 := by
  intro parts
  induction parts with
  | nil => intro _; rfl
  | cons x rest ih =>
    intro h
    cases rest with
    | nil =>
      simp only [strJoin, List.length_cons, List.length_nil]
      exact List.count_eq_zero.2 (h x (by simp))
    | cons y rest2 =>
      have hx : (x : Str).count '/' = 0 :=
        List.count_eq_zero.2 (h x (by simp))
      have htail := ih (by
        intro p hp
        exact h p (List.mem_cons_of_mem _ hp))
      simp only [strJoin] at htail ⊢
      rw [List.count_append, List.count_append, hx]
      simp only [List.length_cons] at htail ⊢
      simp only [List.count_cons, List.count_nil, beq_self_eq_true,
        if_true] at htail ⊢
      omega

/-- C4: no hidden file, no lock file, no file in an excluded or hidden
directory, and no file over the size threshold ever appears in the
discovered file set. -/
theorem claim_C4 (t : FSTree) (rn : Str) (md : Nat) (ex : Bool)
    (e : FileEntry) (he : e ∈ discover_files t rn md ex) :
    SKIP_FILES.contains e.src.name = false ∧
    ['.'].isPrefixOf e.src.name = false ∧
    e.size ≤ 1000000 ∧
    ∃ ds : List Str, (∀ p ∈ ds, keepDir p = true) ∧
      e.rel_path = strJoin ['/'] (ds ++ [e.src.name]) := by
  rcases walkNode_spec md ex rn t [] e he with ⟨ds, f, _, hkall, _, hp⟩
  obtain ⟨hsrc, hrel, hsize, _, _, hskip, hhid, _, hbound⟩ := processFile_eq hp
  rw [hsrc]
  refine ⟨hskip, hhid, by omega, ds, hkall, ?_⟩
  simpa using hrel

/-- C3: with maximum depth N, no discovered relative path has more than N
path separators, and any not-otherwise-excluded file lying exactly N
directories deep (each directory surviving the name filter) does appear. -/
theorem claim_C3 (t : FSTree) (rn : Str) (N : Nat) (ex : Bool)
    (ht : treeNamesOk t) :
    (∀ e ∈ discover_files t rn N ex, e.rel_path.count '/' ≤ N) ∧
    (∀ (ds : List Str) (f : SrcFile), FileAt t ds f → ds.length = N →
      (∀ p ∈ ds, keepDir p = true) →
      SKIP_FILES.contains f.name = false →
      ['.'].isPrefixOf f.name = false →
      (ex && is_test_file f.name (parentDirName rn ds)) = false →
      f.size ≤ 1000000 →
      ∃ e ∈ discover_files t rn N ex,
        e.rel_path = strJoin ['/'] (ds ++ [f.name])) := by
  constructor
  · intro e he
    rcases walkNode_spec N ex rn t [] e he with ⟨ds, f, hat, _, hlen, hp⟩
    obtain ⟨_, hrel, _⟩ := processFile_eq hp
    obtain ⟨hdsok, hfok⟩ := fileAt_namesOk hat ht
    simp only [List.nil_append] at hrel
    rw [hrel]
    rw [count_strJoin (ds ++ [f.name]) (by
      intro p hp2
      rcases List.mem_append.1 hp2 with h1 | h1
      · exact hdsok p h1
      · simp only [List.mem_singleton] at h1
        subst h1
        exact hfok)]
    simp only [List.nil_append, List.length_append, List.length_cons,
      List.length_nil] at hlen ⊢
    omega
  · intro ds f hat hdsN hkall hskip hhid htest hsize
    refine ⟨_, mem_walkNode_of_fileAt N ex rn hat []
      hkall (by simp only [List.length_nil]; omega)
      (processFile_some hskip hhid htest hsize), ?_⟩
    simp

/-- Witness for C3 at a concrete tree with one file exactly at the depth
boundary. -/
theorem claim_C3_witness :
    treeNamesOk treeDepth1 ∧
    (∀ e ∈ discover_files treeDepth1 ['r'] 1 false,
      e.rel_path.count '/' ≤ 1) ∧
    ∃ e ∈ discover_files treeDepth1 ['r'] 1 false,
      e.rel_path = strJoin ['/'] ([['a']] ++ [str "b.py"]) := by
  have hok : treeNamesOk treeDepth1 := by
    refine ⟨⟨by decide, ⟨⟨trivial, ?_⟩, trivial⟩⟩, ?_⟩
    · intro f hf
      rcases List.mem_singleton.1 hf with rfl
      decide
    · intro f hf
      cases hf
  have h := claim_C3 treeDepth1 ['r'] 1 false hok
  refine ⟨hok, h.1, ?_⟩
  refine h.2 [['a']] { name := str "b.py", size := 10, content := str "x = 1" }
    ?_ rfl ?_ (by decide) (by decide) (by decide) (by decide)
  · exact FileAt.there (DirAt.head _ _ _) (FileAt.here (List.mem_cons_self _ _))
  · intro p hp
    rcases List.mem_singleton.1 hp with rfl
    decide

/-- Witness for C4 at the concrete filtering tree. -/
theorem claim_C4_witness :
    SKIP_FILES.contains
      ((discover_files treeFiltering ['r'] 10 false).headI.src.name) = false ∧
    ['.'].isPrefixOf
      ((discover_files treeFiltering ['r'] 10 false).headI.src.name) = false ∧
    (discover_files treeFiltering ['r'] 10 false).headI.size ≤ 1000000 ∧
    ∃ ds : List Str, (∀ p ∈ ds, keepDir p = true) ∧
      (discover_files treeFiltering ['r'] 10 false).headI.rel_path =
        strJoin ['/'] (ds ++
          [(discover_files treeFiltering ['r'] 10 false).headI.src.name]) :=
  claim_C4 treeFiltering ['r'] 10 false _ (List.mem_cons_self _ _)

/-- C9: a discovered file with an empty language tag always carries an empty
description, whatever its content. -/
theorem claim_C9 (t : FSTree) (rn : Str) (md : Nat) (ex : Bool)
    (e : FileEntry) (he : e ∈ discover_files t rn md ex)
    (hlang : e.language = []) : e.description = [] := by
  rcases walkNode_spec md ex rn t [] e he with ⟨ds, f, _, _, _, hp⟩
  obtain ⟨_, _, _, hlang2, hdesc, _⟩ := processFile_eq hp
  rw [hdesc, if_neg]
  intro hne
  rw [hlang2] at hlang
  exact hne hlang

/-- Witness for C9 at a concrete extensionless file that starts with a
comment. -/
theorem claim_C9_witness :
    (discover_files treeNoLang ['r'] 10 false).headI.language = [] ∧
    (discover_files treeNoLang ['r'] 10 false).headI.description = [] := by
  refine ⟨by decide, ?_⟩
  exact claim_C9 treeNoLang ['r'] 10 false _ (List.mem_cons_self _ _) (by decide)

theorem mem_pipelineEntries {t : FSTree} {rn : Str} {md : Nat} {ex : Bool}
    {churn : List (Str × Nat)} {x : FileEntry} :
    x ∈ pipelineEntries t rn md ex churn ↔
      ∃ e ∈ discover_files t rn md ex,
        x = score_one (maxLinesOf (discover_files t rn md ex)) churn
          (maxChurnOf churn) e := by
  unfold pipelineEntries
  rw [mem_sortLe]
  unfold score_importance
  cases hd : discover_files t rn md ex with
  | nil => simp
  | cons a as =>
    simp only [List.mem_map, List.mem_cons]
    constructor
    · rintro ⟨y, hy, rfl⟩
      exact ⟨y, hy, rfl⟩
    · rintro ⟨y, hy, rfl⟩
      exact ⟨y, hy, rfl⟩

theorem mem_jsonApis {entries : List FileEntry} {ip : Bool} {b : ModuleAPI}
    (hb : b ∈ jsonApis entries ip) :
    ∃ x ∈ entries, (str ".py").isSuffixOf x.rel_path = true ∧
      ∃ api0, extract_python_api x.src ip = some api0 ∧
        b = { api0 with path := x.rel_path } := by
  unfold jsonApis at hb
  rcases List.mem_filterMap.1 hb with ⟨x, hx, hsome⟩
  by_cases hs : (str ".py").isSuffixOf x.rel_path = true
  · rw [if_pos hs] at hsome
    rcases Option.map_eq_some'.1 hsome with ⟨api0, hext, hval⟩
    exact ⟨x, hx, hs, api0, hext, hval.symm⟩
  · rw [if_neg hs] at hsome
    cases hsome

theorem mem_mapApis {entries : List FileEntry} {ip : Bool} {b : ModuleAPI}
    (hb : b ∈ mapApis entries ip) :
    ∃ x ∈ entries, (str ".py").isSuffixOf x.rel_path = true ∧
      ∃ api0, extract_python_api x.src ip = some api0 ∧
        (!api0.functions.isEmpty || !api0.classes.isEmpty) = true ∧
        b = { api0 with path := x.rel_path } := by
  unfold mapApis at hb
  rcases List.mem_filterMap.1 hb with ⟨x, hx, hsome⟩
  by_cases hs : (str ".py").isSuffixOf x.rel_path = true
  · rw [if_pos hs] at hsome
    cases hext : extract_python_api x.src ip with
    | none =>
      rw [hext] at hsome
      cases hsome
    | some api0 =>
      rw [hext] at hsome
      dsimp only at hsome
      by_cases hne : (!api0.functions.isEmpty || !api0.classes.isEmpty) = true
      · rw [if_pos hne] at hsome
        injection hsome with hv
        exact ⟨x, hx, hs, api0, hext, hne, hv.symm⟩
      · rw [if_neg hne] at hsome
        cases hsome
  · rw [if_neg hs] at hsome
    cases hsome

/-- C7: a discovered Python file whose source fails to parse (here: every
discovered file at its relative path fails to parse, which under the unique
relative paths of a real file system is the same file) contributes no entry
to the JSON `api` array, yet still appears in `file_tree`; and the output is
total — the run does not fail. -/
theorem claim_C7 (t : FSTree) (rn : Str) (md : Nat) (ip : Bool) (ex : Bool)
    (churn : List (Str × Nat)) (e : FileEntry)
    (he : e ∈ discover_files t rn md ex)
    (hfail : e.src.pyParse = none)
    (huniq : ∀ e2 ∈ discover_files t rn md ex,
      e2.rel_path = e.rel_path → e2.src.pyParse = none) :
    (∀ a ∈ (generate_json t rn md ip ex churn).api, a.module ≠ e.rel_path) ∧
    ∃ item ∈ (generate_json t rn md ip ex churn).file_tree,
      item.path = e.rel_path := by
  constructor
  · intro a ha
    simp only [generate_json] at ha
    rcases List.mem_map.1 ha with ⟨b, hbf, rfl⟩
    rcases mem_jsonApis (List.mem_filter.1 hbf).1 with
      ⟨x, hx, _, api0, hext, rfl⟩
    intro hmod
    simp only [jsonApi] at hmod
    rcases mem_pipelineEntries.1 hx with ⟨e2, he2, rfl⟩
    have hrel : e2.rel_path = e.rel_path := hmod
    have hnone : e2.src.pyParse = none := huniq e2 he2 hrel
    have hsrc : (score_one (maxLinesOf (discover_files t rn md ex)) churn
        (maxChurnOf churn) e2).src = e2.src := rfl
    rw [hsrc] at hext
    unfold extract_python_api at hext
    rw [hnone] at hext
    cases hext
  · refine ⟨_, List.mem_map_of_mem _ (mem_pipelineEntries.2 ⟨e, he, rfl⟩), rfl⟩

/-- Witness for C7 at a concrete tree holding one unparsable Python file. -/
theorem claim_C7_witness :
    (∀ a ∈ (generate_json treeBadPy ['r'] 10 false false []).api,
      a.module ≠ str "bad.py") ∧
    ∃ item ∈ (generate_json treeBadPy ['r'] 10 false false []).file_tree,
      item.path = str "bad.py" := by
  have h := claim_C7 treeBadPy ['r'] 10 false false []
    ((discover_files treeBadPy ['r'] 10 false).headI)
    (List.mem_cons_self _ _) rfl (by
      intro e2 he2 _
      rw [List.eq_of_mem_singleton he2])
  exact h

/-- C10: a Python file whose extraction succeeds but yields no functions and
no classes (here: this holds of every discovered file at its relative path)
appears in neither the markdown API list — whose contents alone feed the
Public API section, the dependency digest and its frequency counts — nor
the JSON `api` array, even when it declares exports or imports. -/
theorem claim_C10 (t : FSTree) (rn : Str) (md : Nat) (ip : Bool) (ex : Bool)
    (churn : List (Str × Nat)) (e : FileEntry)
    (he : e ∈ discover_files t rn md ex)
    (hempty : ∃ api, extract_python_api e.src ip = some api ∧
      api.functions = [] ∧ api.classes = [])
    (huniq : ∀ e2 ∈ discover_files t rn md ex, e2.rel_path = e.rel_path →
      ∀ api2, extract_python_api e2.src ip = some api2 →
        api2.functions = [] ∧ api2.classes = []) :
    (∀ a ∈ mapApis (pipelineEntries t rn md ex churn) ip,
      a.path ≠ e.rel_path) ∧
    (∀ a ∈ (generate_json t rn md ip ex churn).api, a.module ≠ e.rel_path) := by
  constructor
  · intro a ha
    rcases mem_mapApis ha with ⟨x, hx, _, api0, hext, hne, rfl⟩
    intro hmod
    simp only at hmod
    rcases mem_pipelineEntries.1 hx with ⟨e2, he2, rfl⟩
    have hrel : e2.rel_path = e.rel_path := hmod
    obtain ⟨hf, hc⟩ := huniq e2 he2 hrel api0 hext
    rw [hf, hc] at hne
    cases hne
  · intro a ha
    simp only [generate_json] at ha
    rcases List.mem_map.1 ha with ⟨b, hbf, rfl⟩
    obtain ⟨hbmem, hbne⟩ := List.mem_filter.1 hbf
    rcases mem_jsonApis hbmem with ⟨x, hx, _, api0, hext, rfl⟩
    intro hmod
    simp only [jsonApi] at hmod
    rcases mem_pipelineEntries.1 hx with ⟨e2, he2, rfl⟩
    have hrel : e2.rel_path = e.rel_path := hmod
    obtain ⟨hf, hc⟩ := huniq e2 he2 hrel api0 hext
    simp only [hf, hc] at hbne
    cases hbne

/-- Witness for C10 at a concrete tree holding one Python file with imports
and exports but no functions or classes. -/
theorem claim_C10_witness :
    (∀ a ∈ mapApis (pipelineEntries treeImportsOnly ['r'] 10 false []) false,
      a.path ≠ str "e.py") ∧
    (∀ a ∈ (generate_json treeImportsOnly ['r'] 10 false false []).api,
      a.module ≠ str "e.py") := by
  have h := claim_C10 treeImportsOnly ['r'] 10 false false []
    ((discover_files treeImportsOnly ['r'] 10 false).headI)
    (List.mem_cons_self _ _)
    ⟨_, rfl, rfl, rfl⟩ (by
      intro e2 he2 _ api2 hext
      rw [List.eq_of_mem_singleton he2] at hext
      injection hext with hv
      rw [← hv]
      exact ⟨rfl, rfl⟩)
  exact h

set_option maxRecDepth 1000000

/-- Counterexample for C1 as stated: with a token budget of 1 configured on
a tree whose narrative output has no Public API section, the estimate
exceeds the budget yet the output is longer than `4·B` plus the truncation
marker — the trimming loop only fires on a section starting with
`## Public API`. -/
theorem claim_C1_counterexample :
    (generate_map treeMdOnly (str "proj") 10 false (some 1) false []).length /
      CHARS_PER_TOKEN > 1 ∧
    CHARS_PER_TOKEN * 1 + trunc_marker.length <
      (generate_map treeMdOnly (str "proj") 10 false (some 1) false []).length := by
  constructor
  · decide
  · decide

/-- C1 (amended): with a nonzero token budget B configured in narrative
mode, when the estimated token count (total characters divided by 4)
exceeds B and the assembled output contains a Public API section, the
returned narrative output is at most `4·B` plus the truncation marker long. -/
theorem claim_C1 (t : FSTree) (rn : Str) (md : Nat) (ip : Bool) (ex : Bool)
    (churn : List (Str × Nat)) (b : Nat)
    (hne : (discover_files t rn md ex).isEmpty = false)
    (hb : 1 ≤ b)
    (hest : (strJoin (str "\n") (mapSections t rn md ip ex churn)).length /
        CHARS_PER_TOKEN > b)
    (hapi : (mapSections t rn md ip ex churn).any
        (fun s => (str "## Public API").isPrefixOf s) = true) :
    (generate_map t rn md ip (some b) ex churn).length ≤
      CHARS_PER_TOKEN * b + trunc_marker.length := by
  unfold generate_map
  rw [if_neg (by simp [hne])]
  unfold apply_budget
  simp only [show CHARS_PER_TOKEN = 4 from rfl] at hest ⊢
  rw [if_pos ⟨by omega, hest⟩, if_pos hapi]
  have hlen : (strJoin (str "\n") (mapSections t rn md ip ex churn)).length >
      b * 4 := by
    have hmul := (Nat.le_div_iff_mul_le (by omega : 0 < 4)).1
      (Nat.succ_le_of_lt hest)
    omega
  rw [if_pos hlen]
  rw [List.length_append]
  have htake : ((strJoin (str "\n") (mapSections t rn md ip ex churn)).take
      (b * 4)).length ≤ b * 4 := by
    rw [List.length_take]
    omega
  omega

/-- Witness for the amended C1 at a concrete tree whose narrative output has
a Public API section and overruns a budget of 10 tokens. -/
theorem claim_C1_witness :
    (discover_files treePyFunc ['p'] 10 false).isEmpty = false ∧
    1 ≤ 10 ∧
    (strJoin (str "\n") (mapSections treePyFunc ['p'] 10 false false [])).length /
      CHARS_PER_TOKEN > 10 ∧
    (mapSections treePyFunc ['p'] 10 false false []).any
      (fun s => (str "## Public API").isPrefixOf s) = true ∧
    (generate_map treePyFunc ['p'] 10 false (some 10) false []).length ≤
      CHARS_PER_TOKEN * 10 + trunc_marker.length :=
  ⟨by decide, by decide, by decide, by decide,
    claim_C1 treePyFunc ['p'] 10 false false [] 10
      (by decide) (by decide) (by decide) (by decide)⟩

end Codemap
